import Mathlib

/-!
Shallow embedding of the gorouter HTTP routing library (package `gorouter`).

Go strings are modelled as `List Char`; Go byte indexing loops are modelled by
structural recursion on the remaining suffix of the string (an index `offset`
into a string `s` is represented by the suffix `s.drop offset`; the numeric
offset can always be recovered as `s.length - suffix.length`).  Go maps that
are only read through single-key lookup (`node.values`, `pathParams`) are
modelled as association lists with overwrite-on-assignment semantics.  Route
handlers are opaque to the routing logic, so a route is identified by a
natural number.  Fallible Go functions returning `error` are modelled with
`Option`/`Except`.

The breadth-first loops of the tree (`for i := 0; i < len(nodes); i++` over a
growing slice) are modelled with an explicit fuel argument so that the
definitions stay structurally recursive and kernel-reducible; every wrapper
supplies fuel that exceeds the number of iterations the Go loop can perform
(each queue entry is processed exactly once and a node is enqueued at most
once, so the number of iterations is bounded by the number of nodes).
-/

set_option autoImplicit false

namespace Gorouter

instance exceptDecEq {ε α : Type} [DecidableEq ε] [DecidableEq α] :
    DecidableEq (Except ε α)
  | .ok a, .ok b =>
    if h : a = b then .isTrue (by rw [h]) else .isFalse (by simp [h])
  | .ok _, .error _ => .isFalse (by simp)
  | .error _, .ok _ => .isFalse (by simp)
  | .error e, .error f =>
    if h : e = f then .isTrue (by rw [h]) else .isFalse (by simp [h])

/-- Route values are only stored and compared for identity by the tree, so a
route is abstracted to a numeric identifier. -/
abbrev Route := Nat

/-- `param` from the tree source: a wildcard key together with the index of
the slash-separated segment where the key originally was. -/
structure param where
  key : List Char
  index : Nat
deriving DecidableEq, Repr

/-- `nodeValue` from the tree source: the params and route registered for one
method at a node. -/
structure nodeValue where
  params : List param
  route : Route
deriving DecidableEq, Repr

/-- Association-list lookup, modelling a read `m[k]` from a Go map (returns
`none` for a missing key, as the Go zero value `nil` for pointer values). -/
def lookupAssoc {α β : Type} [DecidableEq α] : List (α × β) → α → Option β
  | [], _ => none
  | (k, v) :: rest, k' => if k' = k then some v else lookupAssoc rest k'

/-- Association-list assignment, modelling a Go map write `m[k] = v`
(overwrites the binding if the key is present, otherwise adds it). -/
def assocSet {α β : Type} [DecidableEq α] : List (α × β) → α → β → List (α × β)
  | [], k, v => [(k, v)]
  | (k0, v0) :: rest, k, v =>
    if k = k0 then (k0, v) :: rest else (k0, v0) :: assocSet rest k v

/-- `strings.Split(s, "/")`: splitting the empty string yields `[""]`, and
every separator contributes a boundary. -/
def splitSlash : List Char → List (List Char)
  | [] => [[]]
  | c :: cs =>
    match splitSlash cs with
    | [] => [[]]
    | s :: ss => if c = '/' then [] :: s :: ss else (c :: s) :: ss

/-- Errors of the tree source (`errMalformedParam`, `errMalformedUrl`,
`errEmptyUrl`, `errUrlAlreadyStored`). -/
inductive urlError where
  | errMalformedParam
  | errMalformedUrl
  | errEmptyUrl
  | errUrlAlreadyStored
deriving DecidableEq, Repr

/-- The `/{}` wildcard placeholder (`paramPlaceholder` in the source). -/
def paramPlaceholder : List Char := ['/', '{', '}']

/-- The body of the `for i, e := range spl` loop of `normalizeUrl`: `s` is the
`strings.Builder` accumulator and `ps` the accumulated params.  A segment not
starting with `{` is appended verbatim after a `/`; a segment starting with
`{` must end with `}` (otherwise `errMalformedParam`), is replaced by the
placeholder, and its key `e[1:len(e)-1]` is recorded with the segment index. -/
def normalizeLoop : List (List Char) → Nat → List Char → List param →
    Except urlError (List Char × List param)
  | [], _, s, ps => .ok (s, ps)
  | e :: rest, i, s, ps =>
    if e.head? ≠ some '{' then
      normalizeLoop rest (i + 1) (s ++ '/' :: e) ps
    else if e.getLast? ≠ some '}' then
      .error .errMalformedParam
    else
      normalizeLoop rest (i + 1) (s ++ paramPlaceholder)
        (ps ++ [⟨(e.drop 1).dropLast, i⟩])

/-- `normalizeUrl` from the tree source: empty input and input without a
leading `/` are rejected, then the input after the leading slash is split on
`/` and processed segment by segment. -/
def normalizeUrl (url : List Char) : Except urlError (List Char × List param) :=
  match url with
  | [] => .error .errEmptyUrl
  | c :: rest =>
    if c ≠ '/' then .error .errMalformedUrl
    else normalizeLoop (splitSlash rest) 0 [] []

/-- `longestCommonPrefix` from the tree source (renamed): the number of
leading positions where the two strings agree. -/
def commonPrefixLen : List Char → List Char → Nat
  | c1 :: t1, c2 :: t2 => if c1 = c2 then commonPrefixLen t1 t2 + 1 else 0
  | _, _ => 0

/-- `strings.IndexRune(s, '/')` followed by the offset adjustment of
`getMatchingOffsets`: the suffix of `s` starting at the next `/`, or the
empty suffix when there is no `/` (the offset is set to the length). -/
def dropToSlash (s : List Char) : List Char := s.dropWhile (fun c => !(c = '/'))

/-- The loop of `getMatchingOffsets`, on the remaining suffixes of the two
strings.  While both suffixes are nonempty: on equal heads both advance; on a
mismatch where the first string is not at `{` the loop breaks; otherwise the
wildcard flag is set and both suffixes jump to their next `/` (or to the
end).  Every iteration strictly shrinks the first suffix (in the wildcard
branch the head is `{` and not `/`), so fuel `length + 1` makes the fuel-out
case unreachable from `getMatchingOffsets`. -/
def matchingRemainders : Nat → List Char → List Char → Bool →
    List Char × List Char × Bool
  | 0, s1, s2, w => (s1, s2, w)
  | _ + 1, [], s2, w => ([], s2, w)
  | _ + 1, c1 :: t1, [], w => (c1 :: t1, [], w)
  | fuel + 1, c1 :: t1, c2 :: t2, w =>
    if c1 = c2 then matchingRemainders fuel t1 t2 w
    else if c1 ≠ '{' then (c1 :: t1, c2 :: t2, w)
    else matchingRemainders fuel (dropToSlash (c1 :: t1)) (dropToSlash (c2 :: t2)) true

/-- `getMatchingOffsets` from the tree source, with offsets represented as the
remaining suffixes of the two strings (offset `k` into `s` corresponds to the
suffix `s.drop k`; in particular `offset1 == len(url1)` corresponds to the
first returned suffix being empty). -/
def getMatchingOffsets (url1 url2 : List Char) : List Char × List Char × Bool :=
  matchingRemainders (url1.length + 1) url1 url2 false

/-- `node` from the tree source: the stored part of the URL, the node values
per registered method, and the children. -/
inductive node where
  | mk (part : List Char) (values : List (String × nodeValue)) (children : List node)

def node.part : node → List Char
  | .mk p _ _ => p

def node.values : node → List (String × nodeValue)
  | .mk _ v _ => v

def node.children : node → List node
  | .mk _ _ c => c

/-- `newNode` from the tree source: empty part, no values, no children. -/
def newNode : node := .mk [] [] []

mutual

/-- Number of nodes of a tree: an upper bound on the number of iterations of
the breadth-first loops, used to supply their fuel. -/
def node.size : node → Nat
  | .mk _ _ cs => 1 + nodesSize cs

def nodesSize : List node → Nat
  | [] => 0
  | c :: cs => node.size c + nodesSize cs

end

/-- The breadth-first loop of `node.find`.  The queue models the growing
`nodes` slice together with the advancing index `i`; `searchUrl` is the single
mutable remaining-URL variable shared by the whole walk, and `found` is the
`foundNode` candidate.  A node whose whole part is not consumed is skipped;
when the remaining URL is fully consumed the node becomes the candidate and
the walk stops if no wildcard was involved in this comparison (exact URL
matches are prioritized); otherwise the remaining URL is trimmed and the
children are enqueued.  Each node of the tree enters the queue at most once,
so any fuel exceeding the number of nodes makes the fuel-out case
unreachable. -/
def findLoop : Nat → List node → List Char → Option node → Option node
  | 0, _, _, found => found
  | _ + 1, [], _, found => found
  | fuel + 1, n :: rest, searchUrl, found =>
    let r := getMatchingOffsets n.part searchUrl
    if r.1 ≠ [] then findLoop fuel rest searchUrl found
    else if r.2.1 = [] then
      if r.2.2 = false then some n
      else findLoop fuel rest searchUrl (some n)
    else findLoop fuel (rest ++ n.children) r.2.1 found

/-- The slash-separated segments of the request URL after the leading slash:
`strings.Split(url, "/")[1:]` as used by `node.find`. -/
def urlSegments (url : List Char) : List (List Char) := (splitSlash url).drop 1

/-- Path parameters (`pathParams` in the source): wildcard key to raw URL
segment. -/
abbrev pathParams := List (List Char × List Char)

/-- The parameter-extraction epilogue of `node.find`: for each stored param
the segment of the original request URL at the stored index is bound to the
key (a Go map write; out-of-range indexing, which panics in Go, is modelled
by the empty segment). -/
def extractParams (ps : List param) (url : List Char) : pathParams :=
  ps.foldl (fun m e => assocSet m e.key ((urlSegments url).getD e.index [])) []

/-- The node-and-value part of `node.find`: the breadth-first walk followed by
the method lookup in the found node's values. -/
def node.findValue (n : node) (method : String) (url : List Char) : Option nodeValue :=
  match findLoop (n.size + 1) [n] url none with
  | none => none
  | some fn => lookupAssoc fn.values method

/-- `node.find` from the tree source: the found value's route together with
the parameters extracted from the original request URL.  (When the stored
param list is empty the Go code skips extraction and returns the fresh empty
map, which coincides with `extractParams [] url`.) -/
def node.find (n : node) (method : String) (url : List Char) :
    Option (Route × pathParams) :=
  match n.findValue method url with
  | none => none
  | some v => some (v.route, extractParams v.params url)

/-- The node reached from `t` by the given child-index path.  Go's `insert`
walks over node pointers; the functional model addresses a node by its path
from the root, so that in-place mutations become path updates. -/
def getPath : node → List Nat → Option node
  | n, [] => some n
  | n, i :: p =>
    match n.children.get? i with
    | none => none
    | some c => getPath c p

/-- Update the node at the given path (the functional counterpart of a Go
in-place mutation through a pointer).  An invalid path leaves the tree
unchanged; the paths produced by `insertLoop` are always valid. -/
def modifyPath : node → List Nat → (node → node) → node
  | n, [], f => f n
  | .mk part vals cs, i :: p, f =>
    match cs.get? i with
    | none => .mk part vals cs
    | some c => .mk part vals (cs.set i (modifyPath c p f))

/-- `currNode.values[method] = &nodeValue{...}` on the node at a path. -/
def node.setValue (n : node) (method : String) (v : nodeValue) : node :=
  .mk n.part (assocSet n.values method v) n.children

/-- `parentCandidate.children = append(parentCandidate.children, c)`. -/
def node.addChild (n : node) (c : node) : node :=
  .mk n.part n.values (n.children ++ [c])

/-- The breadth-first loop of `node.insert`.  The queue holds the paths of the
nodes still to visit (the growing `nodes` slice), `searchUrl` is the remaining
part of the insertable URL and `parent` is the current `parentCandidate`
path.  Per visited node: no common prefix with the remaining URL skips the
subtree; an exact match of the remainder ends the walk with an empty
remainder; a common prefix covering the whole stored part descends (trimming
the remainder and enqueueing the children); otherwise the node is key-split
in place (the new child inherits its values and children) and the walk
continues.  The result is the (possibly mutated) tree, the final remainder
and the final parent-candidate path.  Each existing node is enqueued at most
once and every split consumes at least one character of the remainder, so
fuel `size + length + 2` makes the fuel-out case unreachable from
`node.insert`. -/
def insertLoop : Nat → node → List (List Nat) → List Char → List Nat →
    Option (node × List Char × List Nat)
  | 0, _, _, _, _ => none
  | _ + 1, t, [], searchUrl, parent => some (t, searchUrl, parent)
  | fuel + 1, t, p :: rest, searchUrl, parent =>
    match getPath t p with
    | none => none
    | some curr =>
      let lcp := commonPrefixLen curr.part searchUrl
      if lcp = 0 then insertLoop fuel t rest searchUrl parent
      else if searchUrl = curr.part then some (t, [], p)
      else if curr.part.length = lcp then
        insertLoop fuel t
          (rest ++ (List.range curr.children.length).map (fun i => p ++ [i]))
          (searchUrl.drop lcp) p
      else
        let t' := modifyPath t p (fun c =>
          .mk (c.part.take lcp) [] [.mk (c.part.drop lcp) c.values c.children])
        insertLoop fuel t' rest (searchUrl.drop lcp) p

/-- `node.insert` from the tree source.  The URL is normalized; an empty tree
stores the normalized URL at the root; otherwise the breadth-first walk runs
and, depending on the final remainder, either the method binding is added to
the parent candidate (`errUrlAlreadyStored` if that method is already bound
there) or a new child with the remainder is appended to it.  The returned
tree reflects all mutations the Go code performs, including key splits done
before an `errUrlAlreadyStored` return. -/
def node.insert (n : node) (method : String) (url : List Char) (route : Route) :
    Option (Option urlError × node) :=
  match normalizeUrl url with
  | .error e => some (some e, n)
  | .ok (insertUrl, params) =>
    if n.part = [] then
      some (none, .mk insertUrl (assocSet n.values method ⟨params, route⟩) n.children)
    else
      match insertLoop (n.size + insertUrl.length + 2) n [[]] insertUrl [] with
      | none => none
      | some (t, searchUrl, parent) =>
        if searchUrl = [] then
          match getPath t parent with
          | none => none
          | some pc =>
            if (lookupAssoc pc.values method).isSome then
              some (some .errUrlAlreadyStored, t)
            else
              some (none, modifyPath t parent (fun c => c.setValue method ⟨params, route⟩))
        else
          some (none, modifyPath t parent
            (fun c => c.addChild (.mk searchUrl [(method, ⟨params, route⟩)] [])))

/-- A sequence of route registrations starting from `newNode`; `none` if any
insertion returns an error (all sequences used below are error-free). -/
def insertSeqAux : List (String × List Char × Route) → node → Option node
  | [], t => some t
  | (m, u, r) :: rest, t =>
    match t.insert m u r with
    | some (none, t') => insertSeqAux rest t'
    | _ => none

def insertSeq (l : List (String × List Char × Route)) : Option node :=
  insertSeqAux l newNode

/-- `find` on the result of an insertion sequence. -/
def findIn (t : Option node) (m : String) (u : List Char) :
    Option (Option (Route × pathParams)) :=
  t.map (fun n => n.find m u)

/-- The error component of an insertion applied to the result of a previous
insertion sequence (`none` = tree missing, `some none` = insert succeeded,
`some (some e)` = insert failed with `e`). -/
def insertErrAfter (t : Option node) (m : String) (u : List Char) (r : Route) :
    Option (Option urlError) :=
  t.bind (fun n => (n.insert m u r).map Prod.fst)

/-! ### Middleware chain and registry
(src/middleware.go and the `v1.3.0` revision of src/router.go). -/

/-- Observable execution steps: a global pre-runner middleware, a global
post-runner middleware (identified by registration position), or the resolved
terminal handler. -/
inductive entry where
  | pre (k : Nat)
  | post (k : Nat)
  | handler
deriving DecidableEq, Repr

/-- The per-request context, abstracted to the trace of executed steps (the
only observable state the middleware claims speak about). -/
abbrev Ctx := List entry

/-- `HandlerFunc` in state-passing form. -/
abbrev HandlerFunc := Ctx → Ctx

/-- Semantic content of a middleware for the chain claims: the step it logs
and whether its handler invokes `next` (the explicit-next form of the
source: a `MiddlewareFunc` either calls `next(ctx)` after its own work or
returns without doing so). -/
structure MW where
  id : entry
  proceeds : Bool
deriving DecidableEq, Repr

/-- `middleware.Execute(ctx, next)`: the handler runs (appending its id to
the trace) and invokes `next` exactly when it signals "proceed". -/
def MW.execute (m : MW) (ctx : Ctx) (next : HandlerFunc) : Ctx :=
  if m.proceeds then next (ctx ++ [m.id]) else ctx ++ [m.id]

/-- `reduceRight` from src/middleware.go: the loop
`for idx := len(arr) - 1; idx >= 0; idx--` folds the array from its last
element down to its first. -/
def reduceRight {T K : Type} : List T → (K → T → K) → K → K
  | [], _, initial => initial
  | x :: xs, fn, initial => fn (reduceRight xs fn initial) x

/-- `middlewares.createChain` from src/middleware.go: an empty list just runs
`next`; otherwise each middleware is wrapped around the remainder of the
chain by `reduceRight`, with `next` innermost. -/
def createChain (m : List MW) (next : HandlerFunc) : HandlerFunc :=
  fun ctx =>
    if m.length = 0 then next ctx
    else (reduceRight m (fun acc curr => fun c => curr.execute c acc) next) ctx

/-- The resolved route handler of `router.getHandler`, logging its
execution. -/
def terminalHandler : HandlerFunc := fun ctx => ctx ++ [entry.handler]

/-- The no-op tail of the post chain (`func(_ Context) {}`). -/
def noopHandler : HandlerFunc := fun ctx => ctx

/-- `router.Serve` (v1.3.0 revision): the pre chain with the resolved handler
as tail runs first, then the post chain with a no-op tail runs on the same
context, unconditionally. -/
def serve (preMw postMw : List MW) (ctx : Ctx) : Ctx :=
  createChain postMw noopHandler (createChain preMw terminalHandler ctx)

/-- The ids a chain executes: every middleware up to and including the first
one that does not proceed. -/
def runIds : List MW → List entry
  | [] => []
  | m :: ms => if m.proceeds then m.id :: runIds ms else [m.id]

def allProceed : List MW → Bool
  | [] => true
  | m :: ms => m.proceeds && allProceed ms

/-- A list of middlewares whose ids are `mkId k`, `mkId (k+1)`, … and whose
proceed flags are given. -/
def mkMWs (mkId : Nat → entry) : List Bool → Nat → List MW
  | [], _ => []
  | b :: rest, k => ⟨mkId k, b⟩ :: mkMWs mkId rest (k + 1)

/-- The number of middlewares a chain with the given proceed flags executes
(all of them up to and including the first aborting one). -/
def execCount : List Bool → Nat
  | [] => 0
  | b :: rest => if b then execCount rest + 1 else 1

/-- `middlewareType` with its two constants `MiddlewarePreRunner` and
`MiddlewarePostRunner`. -/
inductive middlewareType where
  | preRunner
  | postRunner
deriving DecidableEq, Repr

/-- The global middleware registry (`middlewareRegistry`, a map from
middleware type to middleware list): its two lanes. -/
structure registry where
  preRunners : List MW
  postRunners : List MW
deriving DecidableEq, Repr

/-- `router.appendToMiddlewares` (v1.3.0 revision): an empty batch is
ignored; a post-runner batch is prepended to the existing list; any other
batch is appended to it. -/
def appendToMiddlewares (r : registry) (mType : middlewareType) (mws : List MW) : registry :=
  if mws.length = 0 then r
  else if mType = .postRunner then { r with postRunners := mws ++ r.postRunners }
  else { r with preRunners := r.preRunners ++ mws }

/-- A sequence of single-middleware registrations (`RegisterMiddlewares(m)` /
`RegisterPostMiddlewares(m)` calls, each of which passes a one-element batch
to `appendToMiddlewares`). -/
def registerSeqAux : List (middlewareType × MW) → registry → registry
  | [], r => r
  | (ty, m) :: rest, r => registerSeqAux rest (appendToMiddlewares r ty [m])

def registerSeq (l : List (middlewareType × MW)) : registry :=
  registerSeqAux l ⟨[], []⟩

/-- `router.appendToMiddlewares` (v1.0.0 revision, src/router.go lines
385–390): an empty batch is ignored; every other batch — post-runner ones
included — is appended to the existing list of its lane
(`router.middlewares[mType] = append(router.middlewares[mType],
middlewares...)`). -/
def appendToMiddlewaresV1 (r : registry) (mType : middlewareType) (mws : List MW) : registry :=
  if mws.length = 0 then r
  else if mType = .postRunner then { r with postRunners := r.postRunners ++ mws }
  else { r with preRunners := r.preRunners ++ mws }

/-- A sequence of single-middleware registrations through the v1.0.0
`appendToMiddlewares`. -/
def registerSeqV1Aux : List (middlewareType × MW) → registry → registry
  | [], r => r
  | (ty, m) :: rest, r => registerSeqV1Aux rest (appendToMiddlewaresV1 r ty [m])

def registerSeqV1 (l : List (middlewareType × MW)) : registry :=
  registerSeqV1Aux l ⟨[], []⟩

/-! ### Status codes, the response writers and the typed parameter accessors
(src/unnamed/part_002, src/unnamed/part_006, src/unnamed/part_007,
src/context.go, src/response_writer.go). -/

/-- `http.StatusText` from the Go standard library (an external dependency of
`isValidStatusCode` and `createStatusLine`, modelled from its table of
canonical reason phrases; codes outside the table map to the empty
string). -/
def statusText : Int → String
  | 100 => "Continue"
  | 101 => "Switching Protocols"
  | 102 => "Processing"
  | 103 => "Early Hints"
  | 200 => "OK"
  | 201 => "Created"
  | 202 => "Accepted"
  | 203 => "Non-Authoritative Information"
  | 204 => "No Content"
  | 205 => "Reset Content"
  | 206 => "Partial Content"
  | 207 => "Multi-Status"
  | 208 => "Already Reported"
  | 226 => "IM Used"
  | 300 => "Multiple Choices"
  | 301 => "Moved Permanently"
  | 302 => "Found"
  | 303 => "See Other"
  | 304 => "Not Modified"
  | 305 => "Use Proxy"
  | 307 => "Temporary Redirect"
  | 308 => "Permanent Redirect"
  | 400 => "Bad Request"
  | 401 => "Unauthorized"
  | 402 => "Payment Required"
  | 403 => "Forbidden"
  | 404 => "Not Found"
  | 405 => "Method Not Allowed"
  | 406 => "Not Acceptable"
  | 407 => "Proxy Authentication Required"
  | 408 => "Request Timeout"
  | 409 => "Conflict"
  | 410 => "Gone"
  | 411 => "Length Required"
  | 412 => "Precondition Failed"
  | 413 => "Request Entity Too Large"
  | 414 => "Request URI Too Long"
  | 415 => "Unsupported Media Type"
  | 416 => "Requested Range Not Satisfiable"
  | 417 => "Expectation Failed"
  | 418 => "I" ++ (Char.ofNat 39).toString ++ "m a teapot"
  | 421 => "Misdirected Request"
  | 422 => "Unprocessable Entity"
  | 423 => "Locked"
  | 424 => "Failed Dependency"
  | 425 => "Too Early"
  | 426 => "Upgrade Required"
  | 428 => "Precondition Required"
  | 429 => "Too Many Requests"
  | 431 => "Request Header Fields Too Large"
  | 451 => "Unavailable For Legal Reasons"
  | 500 => "Internal Server Error"
  | 501 => "Not Implemented"
  | 502 => "Bad Gateway"
  | 503 => "Service Unavailable"
  | 504 => "Gateway Timeout"
  | 505 => "HTTP Version Not Supported"
  | 506 => "Variant Also Negotiates"
  | 507 => "Insufficient Storage"
  | 508 => "Loop Detected"
  | 510 => "Not Extended"
  | 511 => "Network Authentication Required"
  | _ => ""

/-- `isValidStatusCode` from src/unnamed/part_002:
`http.StatusText(code) != ""`. -/
def isValidStatusCode (code : Int) : Bool := decide (statusText code ≠ "")

/-- The response-writer state the status-code claims observe: the stored
status code and the configured default (the `context` of
src/unnamed/part_006 through its `writer`). -/
structure ctxStatus where
  statusCode : Int
  defaultStatusCode : Int
deriving DecidableEq, Repr

/-- `context.setStatusCode` from src/unnamed/part_006 (lines 520–531): an
invalid code only logs a warning and returns, leaving the stored code
unchanged; a valid code is stored via `responseWriter.setStatus`. -/
def setStatusCode (c : ctxStatus) (code : Int) : ctxStatus :=
  if isValidStatusCode code then { c with statusCode := code } else c

/-- The status-setting operations of the part_006 revision, each reduced to
the status code it passes to `setStatusCode` (`SendRaw`; `SendJson` with its
resolved optional code; `SendHttpError`, used by all the `Send*` error
helpers; `Pipe` with the upstream response's code), plus `Empty`, which
resets the stored code to the unset value 0 via `responseWriter.Empty`. -/
inductive statusOp where
  | sendRaw (code : Int)
  | sendJson (code : Int)
  | sendHttpError (code : Int)
  | pipe (code : Int)
  | emptyOp
deriving DecidableEq, Repr

def applyStatusOp (c : ctxStatus) : statusOp → ctxStatus
  | .sendRaw code => setStatusCode c code
  | .sendJson code => setStatusCode c code
  | .sendHttpError code => setStatusCode c code
  | .pipe code => setStatusCode c code
  | .emptyOp => { c with statusCode := 0 }

/-- A freshly created context (`NewContext` via `newResponseWriter`): the
stored status code starts at the zero value 0, the default comes from the
configuration. -/
def initCtxStatus (d : Int) : ctxStatus := ⟨0, d⟩

def runStatusOps (ops : List statusOp) (c : ctxStatus) : ctxStatus :=
  ops.foldl applyStatusOp c

/-- The `responseWriter` of the src/context.go revision: the body is a plain
byte slice `b`. -/
structure responseWriterSlice where
  defaultStatusCode : Int
  statusCode : Int
  header : List (String × List String)
  b : List Char
deriving DecidableEq, Repr

/-- `newResponseWriter` of src/context.go: zero status, empty header. -/
def newResponseWriterSlice (statusCode : Int) : responseWriterSlice :=
  ⟨statusCode, 0, [], []⟩

/-- `responseWriter.write` of src/context.go (lines 457–459): `rw.b = b`, the
stored body is replaced by the argument. -/
def sliceWrite (rw : responseWriterSlice) (b : List Char) : responseWriterSlice :=
  { rw with b := b }

/-- What a flush emits to the underlying transport: either the `http.Error`
shortcut or one response carrying headers, effective status code and body. -/
inductive emission where
  | httpError (text : String) (code : Int)
  | response (headers : List (String × String)) (code : Int) (body : List Char)
deriving DecidableEq, Repr

def joinComma : List String → String
  | [] => ""
  | [s] => s
  | s :: rest => s ++ "," ++ joinComma rest

/-- `responseWriter.writeToResponse` of src/context.go (lines 481–504): with
an empty body and a status of at least 300 the canonical status text is sent
through `http.Error`; otherwise the headers are copied (values joined with a
comma), the effective status (explicit if positive, else the configured
default if positive, else 200) is written, and the stored body is written. -/
def writeToResponse (rw : responseWriterSlice) : emission :=
  if rw.b.length = 0 ∧ rw.statusCode ≥ 300 then
    .httpError (statusText rw.statusCode) rw.statusCode
  else
    .response (rw.header.map (fun p => (p.1, joinComma p.2)))
      (if rw.statusCode > 0 then rw.statusCode
       else if rw.defaultStatusCode > 0 then rw.defaultStatusCode
       else 200)
      rw.b

/-- The `responseWriter` of the src/response_writer.go revision: the body is
a `bytes.Buffer`. -/
structure responseWriterBuf where
  httpVersion : String
  defaultStatusCode : Int
  statusCode : Int
  header : List (String × List String)
  buff : List Char
deriving DecidableEq, Repr

def crlf : List Char := ['\r', '\n']

/-- `responseWriter.write` of src/response_writer.go (lines 60–62):
`rw.buff.Write(b)` appends to the buffer. -/
def bufWrite (rw : responseWriterBuf) (b : List Char) : responseWriterBuf :=
  { rw with buff := rw.buff ++ b }

/-- `createStatusLine` of src/response_writer.go: the HTTP version, the three
decimal digits of the status code (each shifted by the ASCII offset 48, with
Go's truncating division and remainder) and the canonical status text. -/
def createStatusLine (version : String) (statusCode : Int) : List Char :=
  version.data ++ [' ']
    ++ [Char.ofNat (statusCode.tdiv 100 + 48).toNat,
        Char.ofNat (((statusCode.tdiv 10).tmod 10) + 48).toNat,
        Char.ofNat ((statusCode.tmod 10) + 48).toNat]
    ++ [' '] ++ (statusText statusCode).data ++ crlf

def joinSemicolon : List String → String
  | [] => ""
  | [s] => s
  | s :: rest => s ++ ";" ++ joinSemicolon rest

/-- `Header.Get`: the first value stored for the key, empty if absent. -/
def headerGet (h : List (String × List String)) (key : String) : String :=
  match lookupAssoc h key with
  | none => ""
  | some [] => ""
  | some (v :: _) => v

/-- `createResponseHeaders` of src/response_writer.go (lines 111–128): the
status line, one `k: join(v, ";")` line per header, a `Date` header with the
current time when none is set (the wall-clock string is the parameter `now`
of the model), and the final blank line. -/
def createResponseHeaders (rw : responseWriterBuf) (now : String) : List Char :=
  createStatusLine rw.httpVersion rw.statusCode
    ++ (rw.header.map (fun p => p.1.data ++ ": ".data ++ (joinSemicolon p.2).data ++ crlf)).flatten
    ++ (if headerGet rw.header "Date" = "" then "Date: ".data ++ now.data ++ crlf else [])
    ++ crlf

/-- `responseWriter.flush` of src/response_writer.go (lines 73–87): the
header bytes are built, the body buffer is appended to them
(`rw.buff.WriteTo(response)`) and the combined bytes go to the connection in
one write (`response.WriteTo(rw.w)` followed by `rw.w.Flush()`); the model
returns the bytes of that single write. -/
def flushBytes (rw : responseWriterBuf) (now : String) : List Char :=
  createResponseHeaders rw now ++ rw.buff

def isDigit (c : Char) : Bool := '0' ≤ c && c ≤ '9'

def parseDigitsAux : List Char → Nat → Option Nat
  | [], acc => some acc
  | c :: rest, acc =>
    if isDigit c then parseDigitsAux rest (acc * 10 + (c.toNat - '0'.toNat))
    else none

/-- `strconv.Atoi` from the Go standard library (an external dependency of
`GetIntParam`, modelled): an optional sign followed by at least one decimal
digit; the empty string, a bare sign or any other character is an error.
(Go additionally rejects values outside the 64-bit range; the claims only
evaluate inputs far inside it, so the range check is not modelled.) -/
def atoi (s : List Char) : Except Unit Int :=
  match s with
  | [] => .error ()
  | '-' :: rest =>
    match rest, parseDigitsAux rest 0 with
    | _ :: _, some n => .ok (-(n : Int))
    | _, _ => .error ()
  | '+' :: rest =>
    match rest, parseDigitsAux rest 0 with
    | _ :: _, some n => .ok (n : Int)
    | _, _ => .error ()
  | l =>
    match parseDigitsAux l 0 with
    | some n => .ok (n : Int)
    | none => .error ()

/-- `context.GetParam` (src/unnamed/part_007): the path-parameter value for
the key (a Go map read; a missing key yields the empty string). -/
def GetParam (ps : pathParams) (key : List Char) : List Char :=
  (lookupAssoc ps key).getD []

/-- `context.GetIntParam` (src/unnamed/part_007, lines 322–326):
`strconv.Atoi` of the string parameter, the parse error being returned to
the caller. -/
def GetIntParam (ps : pathParams) (key : List Char) : Except Unit Int :=
  atoi (GetParam ps key)

/-- Go's `int8(i)` conversion: two's-complement truncation to 8 bits. -/
def toInt8 (i : Int) : Int := (i + 128).emod 256 - 128

/-- Go's `int16(i)` conversion. -/
def toInt16 (i : Int) : Int := (i + 32768).emod 65536 - 32768

/-- Go's `int32(i)` conversion. -/
def toInt32 (i : Int) : Int := (i + 2147483648).emod 4294967296 - 2147483648

/-- `context.GetInt8Param` (src/unnamed/part_007, lines 328–335): when
`GetIntParam` reports an error the function returns `0` together with a
`nil` error (`return 0, nil` in the source); on success the truncated value
with a `nil` error. -/
def GetInt8Param (ps : pathParams) (key : List Char) : Except Unit Int :=
  match GetIntParam ps key with
  | .error _ => .ok 0
  | .ok i => .ok (toInt8 i)

/-- `context.GetInt16Param` (src/unnamed/part_007, lines 337–344): same
shape as `GetInt8Param`, including the `return 0, nil` on a parse error. -/
def GetInt16Param (ps : pathParams) (key : List Char) : Except Unit Int :=
  match GetIntParam ps key with
  | .error _ => .ok 0
  | .ok i => .ok (toInt16 i)

/-- `context.GetInt32Param` (src/unnamed/part_007, lines 346–353): same
shape as `GetInt8Param`, including the `return 0, nil` on a parse error. -/
def GetInt32Param (ps : pathParams) (key : List Char) : Except Unit Int :=
  match GetIntParam ps key with
  | .error _ => .ok 0
  | .ok i => .ok (toInt32 i)

/-- `context.GetInt64Param` (src/unnamed/part_007, lines 355–362): same
shape as `GetInt8Param` (the `int64` conversion of a Go `int` is the
identity), including the `return 0, nil` on a parse error. -/
def GetInt64Param (ps : pathParams) (key : List Char) : Except Unit Int :=
  match GetIntParam ps key with
  | .error _ => .ok 0
  | .ok i => .ok i

/-- Spec-side description of a successful normalization output ("the pattern
with each wildcard segment replaced by the placeholder"): every wildcard
segment contributes `/{}`, every other segment contributes itself after a
slash.  Stated from the spec's words to be compared with `normalizeUrl`. -/
def normalizedOf : List (List Char) → List Char
  | [] => []
  | e :: rest =>
    (if e.head? = some '{' then paramPlaceholder else '/' :: e) ++ normalizedOf rest

/-- Spec-side description of the recorded parameters ("the list of
(key, segmentIndex) pairs"): the key of every wildcard segment (the segment
without its surrounding braces) together with its 0-based segment index,
counted from `i`.  Stated from the spec's words to be compared with
`normalizeUrl`. -/
def paramsOfFrom : List (List Char) → Nat → List param
  | [], _ => []
  | e :: rest, i =>
    if e.head? = some '{' then ⟨(e.drop 1).dropLast, i⟩ :: paramsOfFrom rest (i + 1)
    else paramsOfFrom rest (i + 1)

/-- A segment that triggers `errMalformedParam`: it starts with `{` but does
not end with `}`. -/
def badSegment (e : List Char) : Prop := e.head? = some '{' ∧ e.getLast? ≠ some '}'

instance (e : List Char) : Decidable (badSegment e) := by
  unfold badSegment
  infer_instance

example : normalizeUrl "/api/\x7bfoo\x7d/\x7bbar\x7d".data =
    .ok ("/api/\x7b\x7d/\x7b\x7d".data, [⟨"foo".data, 1⟩, ⟨"bar".data, 2⟩]) := by decide

example : normalizeUrl "".data = .error .errEmptyUrl := by decide

example : normalizeUrl "api/foo/bar".data = .error .errMalformedUrl := by decide

example : normalizeUrl "/api/foo/\x7bbar".data = .error .errMalformedParam := by decide

example : getMatchingOffsets "/\x7b\x7d/foo".data "/baz/foo".data = ([], [], true) := by decide

example : getMatchingOffsets "/foo/foo".data "/foo/baz".data =
    ("foo".data, "baz".data, false) := by decide

example : getMatchingOffsets "/\x7b\x7d".data "/baz/foo/bar".data =
    ([], "/foo/bar".data, true) := by decide

example :
    (node.mk "/api/\x7b\x7d".data [("GET", ⟨[⟨"x".data, 1⟩], 7⟩)] []).find "GET" "/api/foo".data =
      some (7, [("x".data, "foo".data)]) := by decide

-- Sanity checks against the repository's own tree tests.

example : insertErrAfter (insertSeq [("POST", "/foo/bar".data, 1)])
    "POST" "/foo/bar".data 2 = some (some .errUrlAlreadyStored) := by decide

example : insertErrAfter (insertSeq [("POST", "/foo/bar".data, 1)])
    "POST" "/foo/baz".data 2 = some none := by decide

example : insertErrAfter (insertSeq [("POST", "/foo/bar".data, 1)])
    "GET" "/foo/bar".data 2 = some none := by decide

-- "the function returns the queried node, with wildcard parameter #1"
example : findIn (insertSeq
    [("POST", "/api".data, 1), ("POST", "/api/\x7btest\x7d".data, 2),
     ("POST", "/api/foo/bar".data, 2), ("POST", "/api/foo/baz".data, 3),
     ("GET", "/api/foo/baz".data, 3), ("POST", "/api/foo".data, 4),
     ("GET", "/api/foo".data, 4), ("GET", "/".data, 1)])
    "POST" "/api/mock-test".data =
      some (some (2, [("test".data, "mock-test".data)])) := by decide

-- "the function returns the queried node in favor of exact match #1 / #2"
example : findIn (insertSeq [("POST", "/api/\x7bparam\x7d".data, 1), ("POST", "/api/exact".data, 2)])
    "POST" "/api/exact".data = some (some (2, [])) := by decide

example : findIn (insertSeq [("POST", "/api/exact".data, 1), ("POST", "/api/\x7bparam\x7d".data, 2)])
    "POST" "/api/exact".data = some (some (1, [])) := by decide

-- Traced behaviours used by the claim analyses below.

example : findIn (insertSeq
    [("POST", "/a/\x7bx\x7d/c".data, 1), ("POST", "/a/\x7bx\x7d/d".data, 2),
     ("POST", "/a/b/c".data, 3)])
    "POST" "/a/b/c".data = some (some (1, [("x".data, "b".data)])) := by decide

example : findIn (insertSeq [("POST", "/a/\x7bx\x7d/c".data, 1), ("POST", "/a/b/\x7by\x7d".data, 2)])
    "POST" "/a/b/c".data = some (some (2, [("y".data, "c".data)])) := by decide

example : findIn (insertSeq [("POST", "/a/b/\x7by\x7d".data, 2), ("POST", "/a/\x7bx\x7d/c".data, 1)])
    "POST" "/a/b/c".data = some (some (1, [("x".data, "b".data)])) := by decide

theorem reduceRight_chain (ms : List MW) (next : HandlerFunc) (ctx : Ctx) :
    reduceRight ms (fun acc curr => fun c => curr.execute c acc) next ctx =
      if allProceed ms then next (ctx ++ runIds ms) else ctx ++ runIds ms := by
  induction ms generalizing ctx with
  | nil => simp [reduceRight, allProceed, runIds]
  | cons m ms ih =>
    have step : reduceRight (m :: ms) (fun acc curr => fun c => curr.execute c acc) next ctx
        = m.execute ctx (reduceRight ms (fun acc curr => fun c => curr.execute c acc) next) :=
      rfl
    rw [step,
      show m.execute ctx (reduceRight ms (fun acc curr => fun c => curr.execute c acc) next)
        = if m.proceeds then
            (reduceRight ms (fun acc curr => fun c => curr.execute c acc) next) (ctx ++ [m.id])
          else ctx ++ [m.id] from rfl]
    by_cases h : m.proceeds
    · rw [if_pos h, ih]
      by_cases h2 : allProceed ms <;> simp [allProceed, runIds, h, h2]
    · rw [if_neg h]
      simp [allProceed, runIds, h]

theorem createChain_eq (ms : List MW) (next : HandlerFunc) (ctx : Ctx) :
    createChain ms next ctx =
      if allProceed ms then next (ctx ++ runIds ms) else ctx ++ runIds ms := by
  cases ms with
  | nil => simp [createChain, allProceed, runIds]
  | cons m ms => simpa [createChain] using reduceRight_chain (m :: ms) next ctx

theorem allProceed_mkMWs (mkId : Nat → entry) (flags : List Bool) (k : Nat) :
    allProceed (mkMWs mkId flags k) = flags.all id := by
  induction flags generalizing k with
  | nil => simp [mkMWs, allProceed]
  | cons b rest ih => simp [mkMWs, allProceed, ih]

theorem runIds_mkMWs (mkId : Nat → entry) (flags : List Bool) (k : Nat) :
    runIds (mkMWs mkId flags k) =
      (List.range (execCount flags)).map (fun j => mkId (k + j)) := by
  induction flags generalizing k with
  | nil => simp [mkMWs, runIds, execCount]
  | cons b rest ih =>
    by_cases h : b
    · simp only [mkMWs, runIds, h, if_true, execCount, ih, List.range_succ_eq_map,
        List.map_cons, List.map_map, Nat.add_zero, List.cons.injEq, true_and]
      apply List.map_congr_left
      intro j _
      simp only [Function.comp_apply]
      congr 1
      omega
    · simp [mkMWs, runIds, execCount, h, List.range_succ]

theorem execCount_le_of_false (flags : List Bool) (i : Nat)
    (hi : i < flags.length) (hf : flags.getD i true = false) :
    execCount flags ≤ i + 1 := by
  induction flags generalizing i with
  | nil => simp at hi
  | cons b rest ih =>
    cases i with
    | zero =>
      simp at hf
      simp [execCount, hf]
    | succ i' =>
      simp at hi hf
      cases b with
      | true =>
        have := ih i' hi (by simpa using hf)
        simp only [execCount, if_true]
        omega
      | false =>
        simp [execCount]

theorem execCount_iff (flags : List Bool) (k : Nat) (hk : k < flags.length) :
    k < execCount flags ↔ ∀ j, j < k → flags.getD j false = true := by
  induction flags generalizing k with
  | nil => simp at hk
  | cons b rest ih =>
    cases k with
    | zero =>
      cases b <;> simp [execCount]
    | succ k' =>
      simp at hk
      cases b with
      | true =>
        simp only [execCount, if_true]
        rw [Nat.succ_lt_succ_iff, ih k' hk]
        constructor
        · intro hall j hj
          cases j with
          | zero => simp
          | succ j' => simpa using hall j' (by omega)
        · intro hall j hj
          simpa using hall (j + 1) (by omega)
      | false =>
        simp only [execCount, Bool.false_eq_true, if_false]
        constructor
        · intro hlt
          exact absurd hlt (by omega)
        · intro hall
          have := hall 0 (by omega)
          simp at this

theorem runIds_of_allProceed (ms : List MW) (h : allProceed ms = true) :
    runIds ms = ms.map MW.id := by
  induction ms with
  | nil => simp [runIds]
  | cons m rest ih =>
    simp only [allProceed, Bool.and_eq_true] at h
    simp [runIds, h.1, ih h.2]

theorem registerSeqAux_eq (l : List (middlewareType × MW)) (r : registry) :
    registerSeqAux l r =
      ⟨r.preRunners ++ (l.filter (fun p => p.1 == middlewareType.preRunner)).map Prod.snd,
       ((l.filter (fun p => p.1 == middlewareType.postRunner)).map Prod.snd).reverse
         ++ r.postRunners⟩ := by
  induction l generalizing r with
  | nil => cases r; simp [registerSeqAux]
  | cons p rest ih =>
    obtain ⟨ty, m⟩ := p
    cases ty <;>
      simp [registerSeqAux, appendToMiddlewares, ih, List.filter_cons]

theorem normalizeLoop_ok (segs : List (List Char)) (i : Nat) (s : List Char)
    (ps : List param) (h : ∀ e ∈ segs, ¬ badSegment e) :
    normalizeLoop segs i s ps = .ok (s ++ normalizedOf segs, ps ++ paramsOfFrom segs i) := by
  induction segs generalizing i s ps with
  | nil => simp [normalizeLoop, normalizedOf, paramsOfFrom]
  | cons e rest ih =>
    have hrest : ∀ x ∈ rest, ¬ badSegment x := fun x hx => h x (List.mem_cons_of_mem _ hx)
    have he := h e (List.mem_cons_self _ _)
    by_cases hw : e.head? = some '{'
    · have hclose : e.getLast? = some '}' := by
        by_contra hc
        exact he ⟨hw, hc⟩
      simp [normalizeLoop, hw, hclose, normalizedOf, paramsOfFrom, ih _ _ _ hrest,
        List.append_assoc]
    · simp [normalizeLoop, hw, normalizedOf, paramsOfFrom, ih _ _ _ hrest,
        List.append_assoc]

theorem normalizeLoop_err (segs : List (List Char)) (i : Nat) (s : List Char)
    (ps : List param) (h : ∃ e ∈ segs, badSegment e) :
    normalizeLoop segs i s ps = .error .errMalformedParam := by
  induction segs generalizing i s ps with
  | nil => simp at h
  | cons e rest ih =>
    by_cases hb : badSegment e
    · obtain ⟨hw, hc⟩ := hb
      simp [normalizeLoop, hw, hc]
    · have hrest : ∃ x ∈ rest, badSegment x := by
        rcases h with ⟨x, hx, hbad⟩
        rcases List.mem_cons.mp hx with rfl | hx'
        · exact absurd hbad hb
        · exact ⟨x, hx', hbad⟩
      by_cases hw : e.head? = some '{'
      · have hclose : e.getLast? = some '}' := by
          by_contra hc
          exact hb ⟨hw, hc⟩
        simp [normalizeLoop, hw, hclose, ih _ _ _ hrest]
      · simp [normalizeLoop, hw, ih _ _ _ hrest]

theorem lookupAssoc_assocSet {α β : Type} [DecidableEq α]
    (m : List (α × β)) (k : α) (v : β) (k' : α) :
    lookupAssoc (assocSet m k v) k' = if k' = k then some v else lookupAssoc m k' := by
  induction m with
  | nil => simp [assocSet, lookupAssoc]
  | cons p rest ih =>
    obtain ⟨k0, v0⟩ := p
    by_cases h1 : k = k0
    · subst h1
      by_cases h2 : k' = k <;> simp [assocSet, lookupAssoc, h2]
    · by_cases h2 : k' = k0
      · subst h2
        have hne : k' ≠ k := fun hh => h1 hh.symm
        simp [assocSet, lookupAssoc, h1, hne]
      · simp [assocSet, lookupAssoc, h1, h2, ih]

theorem lookupAssoc_foldParams (url : List Char) (ps : List param) (m : pathParams)
    (k : List Char) :
    (lookupAssoc
        (ps.foldl (fun m e => assocSet m e.key ((urlSegments url).getD e.index [])) m)
        k).isSome = true ↔
      (lookupAssoc m k).isSome = true ∨ k ∈ ps.map param.key := by
  induction ps generalizing m with
  | nil => simp
  | cons e rest ih =>
    simp only [List.foldl_cons, ih, List.map_cons, List.mem_cons]
    rw [lookupAssoc_assocSet]
    by_cases h : k = e.key <;> simp [h]

theorem lookupAssoc_fold_not_mem (url : List Char) (ps : List param) (m : pathParams)
    (k : List Char) (hk : k ∉ ps.map param.key) :
    lookupAssoc
        (ps.foldl (fun m e => assocSet m e.key ((urlSegments url).getD e.index [])) m) k =
      lookupAssoc m k := by
  induction ps generalizing m with
  | nil => simp
  | cons e rest ih =>
    simp only [List.map_cons, List.mem_cons] at hk
    push_neg at hk
    simp only [List.foldl_cons, ih _ hk.2]
    rw [lookupAssoc_assocSet, if_neg hk.1]

theorem lookupAssoc_fold_value (url : List Char) (ps : List param) (m : pathParams)
    (hnd : (ps.map param.key).Nodup) (e : param) (he : e ∈ ps) :
    lookupAssoc
        (ps.foldl (fun m e => assocSet m e.key ((urlSegments url).getD e.index [])) m)
        e.key = some ((urlSegments url).getD e.index []) := by
  induction ps generalizing m with
  | nil => simp at he
  | cons x rest ih =>
    simp only [List.map_cons, List.nodup_cons] at hnd
    rcases List.mem_cons.mp he with rfl | he'
    · rw [List.foldl_cons, lookupAssoc_fold_not_mem url rest _ e.key hnd.1]
      rw [lookupAssoc_assocSet, if_pos rfl]
    · exact ih _ hnd.2 he'

/-- C1: counterexample evaluation.  With `/a/{x}/c`, `/a/{x}/d` and the exact
literal `/a/b/c` all registered for POST (in that insertion order), `find` on
the literal URL `/a/b/c` returns the route of the wildcard pattern
`/a/{x}/c` with `x = "b"` instead of the route of the registered exact
literal `/a/b/c` (route 3): the exact-literal match is lost, contradicting
the claim (and the source's own "Exact URL matches are prioritized"
comment and its `in favor of exact match` tests). -/
theorem c1_exact_literal_match_loses_to_wildcard :
    findIn (insertSeq
        [("POST", "/a/\x7bx\x7d/c".data, 1), ("POST", "/a/\x7bx\x7d/d".data, 2),
         ("POST", "/a/b/c".data, 3)])
      "POST" "/a/b/c".data = some (some (1, [("x".data, "b".data)])) := by decide

/-- C2: counterexample evaluation.  The two insertion orders of the same
two-binding set `{(POST, /a/{x}/c, 1), (POST, /a/b/{y}, 2)}` produce trees on
which `find` disagrees for the same request `POST /a/b/c`: the wildcard
route registered first loses, so the lookup depends on the insertion
order. -/
theorem c2_find_depends_on_insertion_order :
    findIn (insertSeq [("POST", "/a/\x7bx\x7d/c".data, 1), ("POST", "/a/b/\x7by\x7d".data, 2)])
        "POST" "/a/b/c".data = some (some (2, [("y".data, "c".data)])) ∧
    findIn (insertSeq [("POST", "/a/b/\x7by\x7d".data, 2), ("POST", "/a/\x7bx\x7d/c".data, 1)])
        "POST" "/a/b/c".data = some (some (1, [("x".data, "b".data)])) :=
  ⟨by decide, by decide⟩

/-- C5: counterexample evaluation.  After the successful registrations
`(POST, /axy, 1)`, `(POST, /axx, 2)` and `(GET, /y, 3)`, a second insert of
`(POST, /axy)` — the very URL and method registered first — is accepted
(`insert` returns no error) instead of failing with `errUrlAlreadyStored`;
the duplicate binding lands on the node of `/y`, so that afterwards
`find(POST, /y)` and `find(POST, /axy)` both return the new route 4. -/
theorem c5_duplicate_insert_accepted :
    insertErrAfter (insertSeq
        [("POST", "/axy".data, 1), ("POST", "/axx".data, 2), ("GET", "/y".data, 3)])
      "POST" "/axy".data 4 = some none ∧
    findIn ((insertSeq
        [("POST", "/axy".data, 1), ("POST", "/axx".data, 2), ("GET", "/y".data, 3)]).bind
          (fun t => (t.insert "POST" "/axy".data 4).map Prod.snd))
      "POST" "/y".data = some (some (4, [])) ∧
    findIn ((insertSeq
        [("POST", "/axy".data, 1), ("POST", "/axx".data, 2), ("GET", "/y".data, 3)]).bind
          (fun t => (t.insert "POST" "/axy".data 4).map Prod.snd))
      "POST" "/axy".data = some (some (4, [])) :=
  ⟨by decide, by decide, by decide⟩

/-- C3: for every value located by `find` (through the breadth-first walk and
the method lookup), the returned route is the stored route and the returned
parameter map is the positional extraction from the original request URL:
its keys are exactly the declared wildcard keys, and (when the declared keys
are distinct, as produced by distinct wildcard names) the value bound to a
key is the raw slash-delimited segment of the requested URL at the stored
segment index — no decoding or transformation applied. -/
theorem c3_find_param_extraction (t : node) (method : String) (url : List Char)
    (v : nodeValue) (hfind : t.findValue method url = some v) :
    t.find method url = some (v.route, extractParams v.params url) ∧
    (∀ k, (lookupAssoc (extractParams v.params url) k).isSome = true ↔
      k ∈ v.params.map param.key) ∧
    ((v.params.map param.key).Nodup →
      ∀ e ∈ v.params, ∀ seg, (urlSegments url).get? e.index = some seg →
        lookupAssoc (extractParams v.params url) e.key = some seg) := by
  refine ⟨?_, ?_, ?_⟩
  · simp [node.find, hfind]
  · intro k
    simpa [extractParams, lookupAssoc] using lookupAssoc_foldParams url v.params [] k
  · intro hnd e he seg hseg
    have hval := lookupAssoc_fold_value url v.params [] hnd e he
    have hgetd : (urlSegments url).getD e.index [] = seg := by
      rw [List.getD_eq_getElem?_getD, ← List.get?_eq_getElem?, hseg]
      rfl
    have hdef : extractParams v.params url =
        v.params.foldl (fun m e => assocSet m e.key ((urlSegments url).getD e.index [])) [] :=
      rfl
    rw [hdef, hval, hgetd]

/-- C3 witness: the characterization applied to the one-node tree storing
`GET /api/{id}` (route 9) and the request URL `/api/42`. -/
theorem c3_find_param_extraction_witness :
    (node.mk "/api/\x7b\x7d".data [("GET", ⟨[⟨"id".data, 1⟩], 9⟩)] []).findValue
        "GET" "/api/42".data = some ⟨[⟨"id".data, 1⟩], 9⟩ ∧
    (node.mk "/api/\x7b\x7d".data [("GET", ⟨[⟨"id".data, 1⟩], 9⟩)] []).find
        "GET" "/api/42".data =
      some ((⟨[⟨"id".data, 1⟩], 9⟩ : nodeValue).route,
        extractParams (⟨[⟨"id".data, 1⟩], 9⟩ : nodeValue).params "/api/42".data) :=
  ⟨by decide,
   (c3_find_param_extraction (node.mk "/api/\x7b\x7d".data [("GET", ⟨[⟨"id".data, 1⟩], 9⟩)] [])
      "GET" "/api/42".data ⟨[⟨"id".data, 1⟩], 9⟩ (by decide)).1⟩

/-- C4: in the explicit-next middleware chain built by `createChain` and run
by `Serve`, if the pre-phase middleware at position `i` does not call `next`,
then no pre-phase middleware at any later position runs and the terminal
handler does not run; and a post-phase middleware at position `k` runs if
and only if every post-phase middleware before it proceeds — in particular
the post chain's execution does not depend on the pre chain's outcome,
because `Serve` invokes the two chains independently. -/
theorem c4_pre_chain_short_circuit (preflags postflags : List Bool) (i : Nat)
    (hi : i < preflags.length) (hfalse : preflags.getD i true = false) :
    (∀ j, i < j →
      entry.pre j ∉ serve (mkMWs entry.pre preflags 0) (mkMWs entry.post postflags 0) []) ∧
    entry.handler ∉ serve (mkMWs entry.pre preflags 0) (mkMWs entry.post postflags 0) [] ∧
    (∀ k, k < postflags.length →
      (entry.post k ∈ serve (mkMWs entry.pre preflags 0) (mkMWs entry.post postflags 0) [] ↔
        ∀ j, j < k → postflags.getD j false = true)) := by
  have hmem : (false : Bool) ∈ preflags := by
    have h1 : preflags.getD i true = preflags[i] := List.getD_eq_getElem preflags true hi
    rw [h1] at hfalse
    rw [← hfalse]
    exact List.getElem_mem hi
  have hall : preflags.all id = false := by
    rw [Bool.eq_false_iff]
    intro htrue
    have := List.all_eq_true.mp htrue false hmem
    simp at this
  have hpre_not : allProceed (mkMWs entry.pre preflags 0) = false := by
    rw [allProceed_mkMWs, hall]
  have houter : ∀ inner : Ctx,
      createChain (mkMWs entry.post postflags 0) noopHandler inner =
        inner ++ runIds (mkMWs entry.post postflags 0) := by
    intro inner
    rw [createChain_eq]
    by_cases h : allProceed (mkMWs entry.post postflags 0) <;> simp [h, noopHandler]
  have hs : serve (mkMWs entry.pre preflags 0) (mkMWs entry.post postflags 0) [] =
      (List.range (execCount preflags)).map (fun j => entry.pre j) ++
        (List.range (execCount postflags)).map (fun j => entry.post j) := by
    rw [serve, houter, createChain_eq, hpre_not]
    simp [runIds_mkMWs]
  refine ⟨?_, ?_, ?_⟩
  · intro j hj hin
    rw [hs] at hin
    simp only [List.mem_append, List.mem_map, List.mem_range] at hin
    rcases hin with ⟨a, ha, heq⟩ | ⟨a, ha, heq⟩
    · simp only [entry.pre.injEq] at heq
      have hle := execCount_le_of_false preflags i hi hfalse
      omega
    · exact absurd heq (by simp)
  · intro hin
    rw [hs] at hin
    simp at hin
  · intro k hk
    rw [hs]
    simp only [List.mem_append, List.mem_map, List.mem_range]
    rw [← execCount_iff postflags k hk]
    constructor
    · rintro (⟨a, ha, heq⟩ | ⟨a, ha, heq⟩)
      · exact absurd heq (by simp)
      · simp only [entry.post.injEq] at heq
        omega
    · intro hlt
      exact Or.inr ⟨k, hlt, rfl⟩

/-- C4 witness: three pre middlewares of which the second aborts, two
proceeding post middlewares — the handler does not run, the second post
middleware still runs. -/
theorem c4_pre_chain_short_circuit_witness :
    entry.handler ∉
      serve (mkMWs entry.pre [true, false, true] 0) (mkMWs entry.post [true, true] 0) [] ∧
    entry.post 1 ∈
      serve (mkMWs entry.pre [true, false, true] 0) (mkMWs entry.post [true, true] 0) [] :=
  ⟨(c4_pre_chain_short_circuit [true, false, true] [true, true] 1
      (by decide) (by decide)).2.1,
   ((c4_pre_chain_short_circuit [true, false, true] [true, true] 1
      (by decide) (by decide)).2.2 1 (by decide)).mpr (by decide)⟩

/-- C6: `normalizeUrl` returns `errEmptyUrl` exactly on the empty input;
`errMalformedUrl` exactly on a nonempty input not starting with `/`;
`errMalformedParam` exactly when the input starts with `/` and some
slash-delimited segment starts with `{` but does not end with `}`; and on
every other input it succeeds with the pattern in which each wildcard
segment is replaced by the placeholder, together with the list of
(key, segmentIndex) pairs. -/
theorem c6_normalize_characterization (u : List Char) :
    (normalizeUrl u = .error .errEmptyUrl ↔ u = []) ∧
    (normalizeUrl u = .error .errMalformedUrl ↔ u ≠ [] ∧ u.head? ≠ some '/') ∧
    (normalizeUrl u = .error .errMalformedParam ↔
      u.head? = some '/' ∧ ∃ e ∈ splitSlash (u.drop 1), badSegment e) ∧
    (u.head? = some '/' → (∀ e ∈ splitSlash (u.drop 1), ¬ badSegment e) →
      normalizeUrl u = .ok (normalizedOf (splitSlash (u.drop 1)),
        paramsOfFrom (splitSlash (u.drop 1)) 0)) := by
  cases u with
  | nil => simp [normalizeUrl]
  | cons c rest =>
    by_cases hc : c = '/'
    · subst hc
      by_cases hbad : ∃ e ∈ splitSlash rest, badSegment e
      · have hloop := normalizeLoop_err (splitSlash rest) 0 [] [] hbad
        simp [normalizeUrl, hloop, hbad]
      · have hgood : ∀ e ∈ splitSlash rest, ¬ badSegment e := by
          intro e hee
          by_contra hcon
          exact hbad ⟨e, hee, hcon⟩
        have hloop := normalizeLoop_ok (splitSlash rest) 0 [] [] hgood
        simp [normalizeUrl, hloop, hbad]
    · simp [normalizeUrl, hc, Ne.symm hc]

/-- C6 witness: the characterization applied to the pattern `/api/{id}`. -/
theorem c6_normalize_characterization_witness :
    normalizeUrl "/api/\x7bid\x7d".data =
      .ok (normalizedOf (splitSlash ("/api/\x7bid\x7d".data.drop 1)),
        paramsOfFrom (splitSlash ("/api/\x7bid\x7d".data.drop 1)) 0) :=
  (c6_normalize_characterization "/api/\x7bid\x7d".data).2.2.2 (by decide) (by decide)

/-- C7: counterexample evaluation for the v1.0.0 revision of
`appendToMiddlewares` (src/router.go lines 385–390), which appends
post-runner batches instead of prepending them: after registering the post
middleware `post 0` and then `post 1`, the registry holds them in
registration order, the chain executes the earlier-registered one first,
and that run order is not the later-registered-first order the claim
demands. -/
theorem c7_v1_later_post_middleware_runs_last :
    (registerSeqV1 [(middlewareType.postRunner, ⟨entry.post 0, true⟩),
                    (middlewareType.postRunner, ⟨entry.post 1, true⟩)]).postRunners =
      [⟨entry.post 0, true⟩, ⟨entry.post 1, true⟩] ∧
    createChain (registerSeqV1 [(middlewareType.postRunner, ⟨entry.post 0, true⟩),
                    (middlewareType.postRunner, ⟨entry.post 1, true⟩)]).postRunners
        noopHandler [] = [entry.post 0, entry.post 1] ∧
    ([entry.post 0, entry.post 1] : List entry) ≠ [entry.post 1, entry.post 0] := by
  exact ⟨by decide, by decide, by decide⟩

/-- C7 (amended): in the v1.3.0 revision, folding any sequence of
single-middleware registrations through `appendToMiddlewares` leaves the
post-runner lane holding the registered post middlewares in reverse
registration order (newer first) and the pre-runner lane holding the pre
middlewares in registration order (newer last); and a chain of proceeding
middlewares executes exactly in list order, so of two post middlewares the
one registered later runs first and of two pre middlewares the one
registered later runs last.  (In the v1.0.0 revision post-runner batches
are appended as well, so there the later-registered post middleware runs
last — see the counterexample above.) -/
theorem c7_middleware_registration_order (l : List (middlewareType × MW)) :
    (registerSeq l).postRunners =
      ((l.filter (fun p => p.1 == middlewareType.postRunner)).map Prod.snd).reverse ∧
    (registerSeq l).preRunners =
      (l.filter (fun p => p.1 == middlewareType.preRunner)).map Prod.snd ∧
    (∀ ms : List MW, allProceed ms = true →
      createChain ms noopHandler [] = ms.map MW.id) := by
  refine ⟨?_, ?_, ?_⟩
  · rw [registerSeq, registerSeqAux_eq]
    simp
  · rw [registerSeq, registerSeqAux_eq]
    simp
  · intro ms h
    rw [createChain_eq, h]
    simp [noopHandler, runIds_of_allProceed ms h]

/-- C7 witness: two post middlewares registered one after the other end up
reversed in the registry, and the chain of the reversed list runs the
later-registered one (id `post 1`) first. -/
theorem c7_middleware_registration_order_witness :
    (registerSeq [(middlewareType.postRunner, ⟨entry.post 0, true⟩),
                  (middlewareType.postRunner, ⟨entry.post 1, true⟩)]).postRunners =
      (([(middlewareType.postRunner, (⟨entry.post 0, true⟩ : MW)),
         (middlewareType.postRunner, ⟨entry.post 1, true⟩)].filter
          (fun p => p.1 == middlewareType.postRunner)).map Prod.snd).reverse ∧
    createChain [⟨entry.post 1, true⟩, ⟨entry.post 0, true⟩] noopHandler [] =
      ([⟨entry.post 1, true⟩, ⟨entry.post 0, true⟩] : List MW).map MW.id :=
  ⟨(c7_middleware_registration_order _).1,
   (c7_middleware_registration_order []).2.2
     [⟨entry.post 1, true⟩, ⟨entry.post 0, true⟩] (by decide)⟩

/-- C8: counterexample evaluation for the src/context.go revision.  Writing
`"ab"` and then `"cd"` before the flush emits a response whose body is only
`"cd"`: `responseWriter.write` stores `rw.b = b`, so each write replaces the
previous one and the flushed body does not contain the data of all writes. -/
theorem c8_slice_writer_keeps_only_last_write :
    writeToResponse (sliceWrite (sliceWrite (newResponseWriterSlice 200) "ab".data)
        "cd".data) =
      .response [] 200 "cd".data ∧ "cd".data ≠ "ab".data ++ "cd".data := by decide

/-- C8 (amended): in the buffered revision (src/response_writer.go) every
write appends to the body buffer, and the single flush emits exactly one
byte sequence consisting of the response head followed by the buffer
contents — i.e. all writes, in order. -/
theorem c8_buffered_writer_reflects_all_writes (rw : responseWriterBuf)
    (ws : List (List Char)) (now : String) :
    flushBytes (ws.foldl bufWrite rw) now =
      createResponseHeaders rw now ++ (rw.buff ++ ws.flatten) := by
  have hfold : ∀ (rw : responseWriterBuf),
      ws.foldl bufWrite rw = { rw with buff := rw.buff ++ ws.flatten } := by
    induction ws with
    | nil => intro rw; simp
    | cons w rest ih => intro rw; simp [bufWrite, ih, List.append_assoc]
  rw [flushBytes, hfold]
  rfl

/-- C9: counterexample evaluation.  For the path parameter `id = "abc"`,
`GetIntParam` surfaces the parse error, but `GetInt8Param`,
`GetInt16Param`, `GetInt32Param` and `GetInt64Param` all return the value 0
with a `nil` error (`return 0, nil` in the source): the parse failure is
swallowed instead of surfaced. -/
theorem c9_int_accessors_swallow_parse_error :
    GetIntParam [("id".data, "abc".data)] "id".data = .error () ∧
    GetInt8Param [("id".data, "abc".data)] "id".data = .ok 0 ∧
    GetInt16Param [("id".data, "abc".data)] "id".data = .ok 0 ∧
    GetInt32Param [("id".data, "abc".data)] "id".data = .ok 0 ∧
    GetInt64Param [("id".data, "abc".data)] "id".data = .ok 0 := by decide

/-- C10: `setStatusCode` leaves the stored status code unchanged whenever
the standard status-text table has no entry for the requested code (only a
warning is logged), and consequently, after any sequence of status-setting
operations on a fresh context, the stored status code is either the unset
value 0 or a recognized HTTP status code. -/
theorem c10_status_code_guard :
    (∀ (c : ctxStatus) (code : Int), isValidStatusCode code = false →
      setStatusCode c code = c) ∧
    (∀ (d : Int) (ops : List statusOp),
      (runStatusOps ops (initCtxStatus d)).statusCode = 0 ∨
        isValidStatusCode (runStatusOps ops (initCtxStatus d)).statusCode = true) := by
  constructor
  · intro c code h
    simp [setStatusCode, h]
  · intro d ops
    have general : ∀ (ops : List statusOp) (c : ctxStatus),
        (c.statusCode = 0 ∨ isValidStatusCode c.statusCode = true) →
        (runStatusOps ops c).statusCode = 0 ∨
          isValidStatusCode (runStatusOps ops c).statusCode = true := by
      intro ops
      induction ops with
      | nil =>
        intro c h
        simpa [runStatusOps] using h
      | cons op rest ih =>
        intro c h
        have hset : ∀ code : Int, (setStatusCode c code).statusCode = 0 ∨
            isValidStatusCode (setStatusCode c code).statusCode = true := by
          intro code
          by_cases hv : isValidStatusCode code = true
          · right
            simp [setStatusCode, hv]
          · have hv' : isValidStatusCode code = false := by
              simpa using hv
            simpa [setStatusCode, hv'] using h
        have hstep : (applyStatusOp c op).statusCode = 0 ∨
            isValidStatusCode (applyStatusOp c op).statusCode = true := by
          cases op with
          | sendRaw code => exact hset code
          | sendJson code => exact hset code
          | sendHttpError code => exact hset code
          | pipe code => exact hset code
          | emptyOp => left; rfl
        have hrec := ih (applyStatusOp c op) hstep
        simpa [runStatusOps] using hrec
    exact general ops (initCtxStatus d) (Or.inl rfl)

/-- C10 witness: 999 has no status text, so setting it leaves a context with
status 200 unchanged. -/
theorem c10_status_code_guard_witness :
    isValidStatusCode 999 = false ∧ setStatusCode ⟨200, 200⟩ 999 = ⟨200, 200⟩ :=
  ⟨by decide, c10_status_code_guard.1 ⟨200, 200⟩ 999 (by decide)⟩

end Gorouter
